import Mathlib

/-!
Verification development for the mihomo proxy monitor (`src/main.py`).

The Python program is shallowly embedded: JSON payloads become the inductive
type `JValue` (floats are outside the embedding's scope; no claim involves
them), Python `dict`s become association lists in insertion order (Python
dicts iterate in insertion order and `json` decoding yields string keys),
fallible operations return `Except String`, and the HTTP layer is abstracted
as the outcome a request would produce.
-/

/-- JSON-like values as produced by `resp.json()` in the Python source.
Python `dict`s preserve insertion order, which the field list mirrors. -/
inductive JValue where
  | null
  | jbool (b : Bool)
  | jint (n : Int)
  | jstr (s : String)
  | jarr (xs : List JValue)
  | jobj (fields : List (String × JValue))

/-- Whitespace as stripped by Python `str.strip()` (and by `int()` on
strings): the characters for which Python `str.isspace()` holds. -/
def isPySpace (c : Char) : Bool :=
  c ∈ [' ', '\t', '\n', '\r', '\u000b', '\u000c',
       '\u001c', '\u001d', '\u001e', '\u001f', '\u0085', ' ',
       ' ', ' ', ' ', ' ', ' ', ' ', ' ',
       ' ', ' ', ' ', ' ', ' ', ' ', ' ',
       ' ', ' ', '　']

/-- Drop elements satisfying `p` from both ends of a list; this is the
list-level behaviour of Python `str.strip()`. -/
def dropEnds {α : Type} (p : α → Bool) (l : List α) : List α :=
  ((l.dropWhile p).reverse.dropWhile p).reverse

/-- Digit-run grammar accepted by Python `int(str)` after sign removal:
one or more ASCII digits with single underscores strictly between digits
(`needDigit` records whether the next character must be a digit).
Non-ASCII decimal digits, which CPython also accepts, are outside the
embedding's scope; no claim involves them. -/
def pyDigits : List Char → Bool → Nat → Option Nat
  | [], needDigit, acc => if needDigit then none else some acc
  | c :: rest, needDigit, acc =>
    if c.isDigit then pyDigits rest false (acc * 10 + (c.toNat - '0'.toNat))
    else if c = '_' then
      if needDigit then none else pyDigits rest true acc
    else none

/-- Python `int(s)` for a string `s`: strip whitespace, optional sign,
then a digit run; `none` models the raised `ValueError`. -/
def pyIntOfString (s : String) : Option Int :=
  match dropEnds isPySpace s.toList with
  | '+' :: rest => (pyDigits rest true 0).map Int.ofNat
  | '-' :: rest => (pyDigits rest true 0).map (fun n => -(Int.ofNat n))
  | rest => (pyDigits rest true 0).map Int.ofNat

/-- The `_to_int` helper of `parse_group_delays`: Python `int(value)` with
`TypeError`/`ValueError` mapped to `none`.  `int` accepts integers, booleans
(`True` is 1) and numeric strings; `None`, lists and dicts raise. -/
def to_int : JValue → Option Int
  | .jint n => some n
  | .jbool b => some (if b then 1 else 0)
  | .jstr s => pyIntOfString s
  | _ => none

/-- The `ProxyDelay` dataclass of the source. -/
structure ProxyDelay where
  name : String
  delay_ms : Int
  deriving DecidableEq, Repr

/-- Python `dict` lookup (`payload["k"]` / `payload.get("k")` present-case)
on the association-list embedding; keys of a Python dict are unique, so the
first match is the only one. -/
def jlookup (fields : List (String × JValue)) (key : String) : Option JValue :=
  (fields.find? (fun kv => kv.1 = key)).map (fun kv => kv.2)

/-- Shared per-entry validation loop for the two mapping-shaped cases of
`parse_group_delays` (lines 88-93 and 97-102): keep an entry when its value
parses to a non-negative integer, silently drop it otherwise. -/
def mapEntries (items : List (String × JValue)) : List ProxyDelay :=
  items.filterMap fun kv =>
    match to_int kv.2 with
    | some d => if 0 ≤ d then some ⟨kv.1, d⟩ else none
    | none => none

/-- Entry loop of the list-of-objects case of `parse_group_delays`
(lines 107-118): skip non-dict items, require a string `name`, and keep the
entry when `delay` parses to a non-negative integer. -/
def listEntries (items : List JValue) : List ProxyDelay :=
  items.filterMap fun item =>
    match item with
    | .jobj f =>
      match jlookup f "name" with
      | some (.jstr nm) =>
        match (jlookup f "delay").bind to_int with
        | some d => if 0 ≤ d then some (⟨nm, d⟩ : ProxyDelay) else none
        | none => none
      | _ => none
    | _ => none

/-- The `parse_group_delays` function (lines 78-130).  Case 1 (`"delays"`
holds a dict) returns its survivors unconditionally; case 2 (whole payload
as a name-to-delay map) commits only when at least one entry survives — the
`all(isinstance(key, str) ...)` guard is always true in this embedding since
JSON object keys are strings; case 3 (`"proxies"` holds a list) returns its
survivors unconditionally; case 4 (singular `name`/`delay` object) returns a
singleton only when the name is a string and the delay parses non-negative;
otherwise the result is empty (after a logged warning). -/
def parse_group_delays (payload : List (String × JValue)) : List ProxyDelay :=
  match jlookup payload "delays" with
  | some (.jobj inner) => mapEntries inner
  | _ =>
    match mapEntries payload with
    | p :: rest => p :: rest
    | [] =>
      match jlookup payload "proxies" with
      | some (.jarr items) => listEntries items
      | _ =>
        match jlookup payload "name", jlookup payload "delay" with
        | some nv, some dv =>
          match nv with
          | .jstr nm =>
            match to_int dv with
            | some d => if 0 ≤ d then [(⟨nm, d⟩ : ProxyDelay)] else []
            | none => []
          | _ => []
        | _, _ => []

/-- The `sanitize_name` function (lines 133-143), parametrised by Python's
`unicodedata.category` (an external table mapping each character to its
two-letter Unicode general-category name): keep a fixed set of safe
punctuation and every character whose category starts with L, N or M, then
strip leading and trailing whitespace. -/
def sanitize_name (category : Char → String) (name : String) : String :=
  (dropEnds isPySpace
    (name.toList.filter fun ch =>
      if ch ∈ [' ', '.', '-', '_', '(', ')', '/', '[', ']', ':'] then true
      else
        match (category ch).toList with
        | [] => false
        | c0 :: _ => c0 = 'L' || c0 = 'N' || c0 = 'M')).asString

/-- Python `list.sort(key=delay_ms)` at line 269: a stable ascending sort.
CPython's sort is stable, and a stable sort of a given list under a given
total preorder is unique, so insertion sort computes the same list. -/
def sortDelays (delays : List ProxyDelay) : List ProxyDelay :=
  List.insertionSort (fun a b => a.delay_ms ≤ b.delay_ms) delays

/-- Lines 279-280: `delay_map = {item.name: item.delay_ms for item in delays}`
followed by `delay_map.get(current) if current else None`.  Later duplicates
overwrite earlier ones in a dict comprehension (hence the reversed search),
and an absent or empty (falsy) current yields `None`. -/
def currentDelayOf (sorted : List ProxyDelay) (current : Option String) : Option Int :=
  match current with
  | none => none
  | some c =>
    if c = "" then none
    else ((sorted.reverse.find? (fun p => p.name = c)).map (fun p => p.delay_ms))

/-- The `should_switch` outcome of the decision chain (lines 284-301): switch
exactly when the current proxy and its delay are known, the best candidate is
a different proxy, the current delay exceeds the 1000 ms floor, and the
advantage exceeds the configured hysteresis gap. -/
def shouldSwitch (best : ProxyDelay) (current : Option String)
    (currentDelay : Option Int) (diff : Int) : Bool :=
  match current, currentDelay with
  | some c, some d => decide (best.name ≠ c) && decide (1000 < d) && decide (diff < d - best.delay_ms)
  | _, _ => false

/-- The `reason` variable of the decision chain (lines 284-301).  The final
`elif` leaves the reason empty when the current delay exceeds 1000 ms but the
switch condition still fails (same best, or gap within the hysteresis). -/
def decisionReason (best : ProxyDelay) (current : Option String)
    (currentDelay : Option Int) (diff : Int) : String :=
  match current, currentDelay with
  | none, _ => "current proxy not found, keeping best as target"
  | some _, none => "current delay unavailable, keeping current"
  | some c, some d =>
    if best.name ≠ c ∧ 1000 < d ∧ diff < d - best.delay_ms then
      "current slower than best and delay > 1000ms"
    else if d ≤ 1000 then "current delay <= 1000ms, keeping current"
    else ""

/-- JSON encoding of an optional string field of the result dict
(Python `None` becomes JSON `null`). -/
def jsonOfOptStr : Option String → JValue
  | none => .null
  | some s => .jstr s

/-- JSON encoding of an optional integer field of the result dict. -/
def jsonOfOptInt : Option Int → JValue
  | none => .null
  | some n => .jint n

/-- The decision cycle `auto_select_once` (lines 262-334) after the two
fetches, with the `switch_proxy` PUT abstracted as its outcome
`switchOutcome` (an exception raised by `resp.raise_for_status()` becomes
`.error`): sort the snapshot, answer `{"error": "no delay data"}` when it is
empty, otherwise evaluate the decision chain; on a switch, perform the
mutation first (line 304) — a raised error propagates and no result dict is
ever built — and only then finalise the `switched` result; otherwise build
the `kept` result, which carries no `reason` key (lines 313-320). -/
def auto_select_once (delays : List ProxyDelay) (current : Option String)
    (diff : Int) (switchOutcome : Except String Unit) :
    Except String (List (String × JValue)) :=
  match sortDelays delays with
  | [] => .ok [("error", .jstr "no delay data")]
  | best :: _ =>
    let cd := currentDelayOf (sortDelays delays) current
    if shouldSwitch best current cd diff
        && decide (some best.name ≠ current) then
      match switchOutcome with
      | .error e => .error e
      | .ok () =>
        .ok [("action", .jstr "switched"),
             ("from", jsonOfOptStr current),
             ("to", .jstr best.name),
             ("from_delay_ms", jsonOfOptInt cd),
             ("to_delay_ms", .jint best.delay_ms),
             ("reason", .jstr (decisionReason best current cd diff))]
    else
      .ok [("action", .jstr "kept"),
           ("current", jsonOfOptStr current),
           ("delay_ms", jsonOfOptInt cd),
           ("best", .jstr best.name),
           ("best_delay_ms", .jint best.delay_ms)]

/-- The `get_group_delays` operation (lines 58-75) with the HTTP exchange
abstracted as `resp`: a transport error, non-success status or JSON decode
failure is `.error` and yields an empty snapshot after a logged warning; a
non-dict JSON body makes `parse_group_delays` raise inside the same `try`
(e.g. `payload.keys()` on a list), which is likewise caught and yields `[]`. -/
def get_group_delays (resp : Except String JValue) : List ProxyDelay :=
  match resp with
  | .error _ => []
  | .ok (.jobj fields) => parse_group_delays fields
  | .ok _ => []

/-- The `get_current_proxy` operation (lines 146-154) with the HTTP exchange
abstracted as `resp`: every failure propagates (`resp.raise_for_status()` is
not guarded), and on success the result is `payload.get("now")`, which is
absent exactly when the key is missing or holds JSON `null`.  A non-dict body
would raise an `AttributeError` at `.get`, which also propagates. -/
def get_current_proxy (resp : Except String JValue) :
    Except String (Option JValue) :=
  match resp with
  | .error e => .error e
  | .ok (.jobj fields) =>
    .ok (match jlookup fields "now" with
         | some .null => none
         | some v => some v
         | none => none)
  | .ok _ => .error "AttributeError"

/-- The `monitor_loop` body (lines 351-356), abstracted over the outcomes of
the successive decision cycles: `fuel` is the number of cycles that would run
before the stop signal is observed at the interval wait, and `cycles i` is
what the `i`-th call of `auto_select_once` does.  The call at line 352 is not
guarded by any `try`, so an error ends the recursion; on success the loop
waits (the guarded `asyncio.wait_for` whose `TimeoutError` means "continue")
and proceeds.  The value returned counts completed cycles. -/
def monitor_loop : Nat → (Nat → Except String Unit) → Except String Nat
  | 0, _ => .ok 0
  | fuel + 1, cycles =>
    match cycles 0 with
    | .error e => .error e
    | .ok () =>
      match monitor_loop fuel (fun i => cycles (i + 1)) with
      | .error e => .error e
      | .ok n => .ok (n + 1)

/-- Number of decision cycles the monitor loop starts (attempts), in the same
abstraction as `monitor_loop`. -/
def monitorAttempts : Nat → (Nat → Except String Unit) → Nat
  | 0, _ => 0
  | fuel + 1, cycles =>
    match cycles 0 with
    | .error _ => 1
    | .ok () => monitorAttempts fuel (fun i => cycles (i + 1)) + 1

/-- Membership in the mapping-shaped entry loop comes from a source pair
whose value parses to that non-negative delay. -/
theorem mem_mapEntries {l : List (String × JValue)} {p : ProxyDelay}
    (hp : p ∈ mapEntries l) : 0 ≤ p.delay_ms := by
  rcases List.mem_filterMap.mp hp with ⟨kv, _, hf⟩
  split at hf
  · split at hf
    · cases hf; assumption
    · cases hf
  · cases hf

/-- Entries produced by the list-of-objects loop all carry a non-negative
delay. -/
theorem mem_listEntries {l : List JValue} {p : ProxyDelay}
    (hp : p ∈ listEntries l) : 0 ≤ p.delay_ms := by
  rcases List.mem_filterMap.mp hp with ⟨item, _, hf⟩
  split at hf
  · split at hf
    · split at hf
      · split at hf
        · cases hf; assumption
        · cases hf
      · cases hf
    · cases hf
  · cases hf

/-- C3 (amended part): every entry any payload parses to has a non-negative
delay. -/
theorem parse_group_delays_nonneg
    (payload : List (String × JValue)) (p : ProxyDelay)
    (hp : p ∈ parse_group_delays payload) : 0 ≤ p.delay_ms := by
  unfold parse_group_delays at hp
  split at hp
  · exact mem_mapEntries hp
  · split at hp
    · rename_i heq
      exact mem_mapEntries (heq ▸ hp)
    · split at hp
      · exact mem_listEntries hp
      · split at hp
        · split at hp
          · split at hp
            · split at hp
              · rcases List.mem_singleton.mp hp with rfl
                assumption
              · cases hp
            · cases hp
          · cases hp
        · cases hp

/-- C3 (counterexample): the payload
`{"proxies": [{"name": "", "delay": 1}, {"name": "", "delay": 2}]}` parses to
two entries that share the (empty) name, so the parser enforces neither
non-empty names nor name uniqueness. -/
theorem parse_group_delays_dup_empty_names :
    parse_group_delays
      [("proxies", .jarr [.jobj [("name", .jstr ""), ("delay", .jint 1)],
                          .jobj [("name", .jstr ""), ("delay", .jint 2)]])]
      = [⟨"", 1⟩, ⟨"", 2⟩] ∧
    ¬ ((([⟨"", 1⟩, ⟨"", 2⟩] : List ProxyDelay).map ProxyDelay.name).Nodup) ∧
    ¬ (∀ p ∈ ([⟨"", 1⟩, ⟨"", 2⟩] : List ProxyDelay), p.name ≠ "") := by
  refine ⟨by decide, by decide, by decide⟩

/-- C3 (witness): the non-negativity theorem applied to a concrete payload
and entry. -/
theorem parse_group_delays_nonneg_witness :
    (⟨"a", 5⟩ : ProxyDelay) ∈ parse_group_delays [("a", .jint 5)] ∧
    0 ≤ (⟨"a", 5⟩ : ProxyDelay).delay_ms :=
  ⟨by decide, parse_group_delays_nonneg [("a", .jint 5)] ⟨"a", 5⟩ (by decide)⟩

/-- C7: the payload
`{"proxies": [{"name": "x", "delay": 50}, {"name": "y", "delay": -1}]}`
parses to exactly the entry (x, 50) — y is dropped for its negative delay —
and the top-level-map interpretation does not commit, because the value under
the `proxies` key (a list) does not parse as an integer, so that pass yields
no survivor. -/
theorem parse_group_delays_proxies_example :
    parse_group_delays
      [("proxies", .jarr [.jobj [("name", .jstr "x"), ("delay", .jint 50)],
                          .jobj [("name", .jstr "y"), ("delay", .jint (-1))]])]
      = [⟨"x", 50⟩] ∧
    to_int (.jarr [.jobj [("name", .jstr "x"), ("delay", .jint 50)],
                   .jobj [("name", .jstr "y"), ("delay", .jint (-1))]]) = none ∧
    mapEntries
      [("proxies", .jarr [.jobj [("name", .jstr "x"), ("delay", .jint 50)],
                          .jobj [("name", .jstr "y"), ("delay", .jint (-1))]])]
      = [] := by
  refine ⟨by decide, rfl, by decide⟩

/-- C2 (counterexample): in
`{"delays": {"a": -1}, "proxies": [{"name": "x", "delay": 5}]}` the `delays`
field is present and is a mapping yet no entry survives, and the parser still
commits to that interpretation, returning the empty snapshot instead of the
non-empty result the list-of-objects interpretation would have produced. -/
theorem parse_group_delays_empty_delays_commits :
    parse_group_delays
      [("delays", .jobj [("a", .jint (-1))]),
       ("proxies", .jarr [.jobj [("name", .jstr "x"), ("delay", .jint 5)]])]
      = [] ∧
    listEntries [.jobj [("name", .jstr "x"), ("delay", .jint 5)]]
      = [⟨"x", 5⟩] := by
  refine ⟨by decide, by decide⟩

/-- C2 (amended): whenever the `delays` field is present and is a mapping,
the parser commits to that interpretation unconditionally and returns exactly
its surviving entries — even when none survive; it never falls through to the
later shape interpretations. -/
theorem parse_group_delays_delays_dict_commits
    (payload : List (String × JValue)) (inner : List (String × JValue))
    (h : jlookup payload "delays" = some (.jobj inner)) :
    parse_group_delays payload = mapEntries inner := by
  unfold parse_group_delays
  rw [h]

/-- C2 (witness): the commit theorem applied to a concrete payload whose
`delays` mapping has no survivor. -/
theorem parse_group_delays_delays_dict_commits_witness :
    jlookup [("delays", .jobj [("a", .jint (-1))])] "delays"
      = some (.jobj [("a", .jint (-1))]) ∧
    parse_group_delays [("delays", .jobj [("a", .jint (-1))])]
      = mapEntries [("a", .jint (-1))] :=
  ⟨rfl, parse_group_delays_delays_dict_commits _ _ rfl⟩

/-- C6: the two read operations are asymmetric — a failed delay fetch
degrades to an empty snapshot and never propagates, a failed current-proxy
fetch propagates unchanged, and the current-proxy fetch reports an absent
selection exactly when the controller's `now` field is missing or null. -/
theorem read_operations_error_asymmetry :
    (∀ e, get_group_delays (.error e) = []) ∧
    (∀ e, get_current_proxy (.error e) = .error e) ∧
    (∀ fields, get_current_proxy (.ok (.jobj fields)) = .ok none ↔
      (jlookup fields "now" = none ∨ jlookup fields "now" = some .null)) := by
  refine ⟨fun e => rfl, fun e => rfl, fun fields => ?_⟩
  unfold get_current_proxy
  cases h : jlookup fields "now" with
  | none => simp [h]
  | some v => cases v <;> simp [h]

/-- C10: when the `delays` field is absent or not a mapping and the `proxies`
field is absent or not a list, every top-level key whose value parses to a
non-negative integer becomes an entry named by that key — structural keys
included; in particular `{"error": 404}` parses to the single entry
(error, 404) and `{"delays": 5}` to the single entry (delays, 5). -/
theorem parse_group_delays_top_level_fallback
    (payload : List (String × JValue)) (k : String) (v : JValue) (n : Int)
    (_hkeys : (payload.map Prod.fst).Nodup)
    (hdel : ∀ inner, jlookup payload "delays" ≠ some (.jobj inner))
    (_hprox : ∀ items, jlookup payload "proxies" ≠ some (.jarr items))
    (hkv : (k, v) ∈ payload) (hn : to_int v = some n) (hnn : 0 ≤ n) :
    (⟨k, n⟩ : ProxyDelay) ∈ parse_group_delays payload ∧
    parse_group_delays [("error", .jint 404)] = [⟨"error", 404⟩] ∧
    parse_group_delays [("delays", .jint 5)] = [⟨"delays", 5⟩] := by
  refine ⟨?_, by decide, by decide⟩
  have hmem : (⟨k, n⟩ : ProxyDelay) ∈ mapEntries payload := by
    refine List.mem_filterMap.mpr ⟨(k, v), hkv, ?_⟩
    simp only [hn, hnn, if_pos]
  unfold parse_group_delays
  split
  · rename_i heq
    exact absurd heq (hdel _)
  · split
    · rename_i heq
      exact heq ▸ hmem
    · rename_i heq
      rw [heq] at hmem
      cases hmem

/-- C10 (witness): the fallback theorem applied to the payload
`{"other": true, "error": 404}`. -/
theorem parse_group_delays_top_level_fallback_witness :
    ((([("other", JValue.jbool true), ("error", JValue.jint 404)] :
        List (String × JValue)).map Prod.fst).Nodup ∧
     (∀ inner, jlookup [("other", .jbool true), ("error", .jint 404)] "delays"
        ≠ some (.jobj inner)) ∧
     (∀ items, jlookup [("other", .jbool true), ("error", .jint 404)] "proxies"
        ≠ some (.jarr items)) ∧
     ("error", JValue.jint 404) ∈
        ([("other", JValue.jbool true), ("error", JValue.jint 404)] :
          List (String × JValue)) ∧
     to_int (.jint 404) = some 404 ∧ (0 : Int) ≤ 404) ∧
    (⟨"error", 404⟩ : ProxyDelay) ∈
      parse_group_delays [("other", .jbool true), ("error", .jint 404)] := by
  have hd : jlookup [("other", JValue.jbool true), ("error", JValue.jint 404)]
      "delays" = none := rfl
  have hp : jlookup [("other", JValue.jbool true), ("error", JValue.jint 404)]
      "proxies" = none := rfl
  have hdel : ∀ inner,
      jlookup [("other", JValue.jbool true), ("error", JValue.jint 404)]
        "delays" ≠ some (.jobj inner) := by
    intro inner h
    rw [hd] at h
    exact Option.noConfusion h
  have hprox : ∀ items,
      jlookup [("other", JValue.jbool true), ("error", JValue.jint 404)]
        "proxies" ≠ some (.jarr items) := by
    intro items h
    rw [hp] at h
    exact Option.noConfusion h
  have hkv : ("error", JValue.jint 404) ∈
      ([("other", JValue.jbool true), ("error", JValue.jint 404)] :
        List (String × JValue)) :=
    List.Mem.tail _ (List.Mem.head _)
  refine ⟨⟨by decide, hdel, hprox, hkv, rfl, by decide⟩, ?_⟩
  exact (parse_group_delays_top_level_fallback
    [("other", .jbool true), ("error", .jint 404)] "error" (.jint 404) 404
    (by decide) hdel hprox hkv rfl (by decide)).1

/-- C4 (counterexample): with two scheduled cycles, an error raised by the
first decision cycle propagates out of the unguarded `await auto_select_once`
call and ends the loop — only one cycle is ever attempted, whereas an
error-free run attempts both. -/
theorem monitor_loop_error_kills_loop :
    monitor_loop 2 (fun i => if i = 0 then .error "boom" else .ok ())
      = .error "boom" ∧
    monitorAttempts 2 (fun i => if i = 0 then .error "boom" else .ok ()) = 1 ∧
    monitorAttempts 2 (fun _ => .ok ()) = 2 := by
  refine ⟨rfl, rfl, rfl⟩

/-- C4 (amended): the loop body is not guarded, so the first cycle that
raises ends the whole monitor loop with that error; exactly the cycles up to
and including the failing one are attempted, and no later scheduled cycle
runs. -/
theorem monitor_loop_unguarded
    (i : Nat) (fuel : Nat) (cycles : Nat → Except String Unit) (e : String)
    (hok : ∀ j, j < i → cycles j = .ok ())
    (hi : cycles i = .error e) (hlt : i < fuel) :
    monitor_loop fuel cycles = .error e ∧
    monitorAttempts fuel cycles = i + 1 := by
  induction i generalizing fuel cycles with
  | zero =>
    cases fuel with
    | zero => exact absurd hlt (Nat.lt_irrefl 0)
    | succ f =>
      unfold monitor_loop monitorAttempts
      rw [hi]
      exact ⟨rfl, rfl⟩
  | succ i ih =>
    cases fuel with
    | zero => exact absurd hlt (Nat.not_lt_zero _)
    | succ f =>
      have h0 : cycles 0 = .ok () := hok 0 (Nat.succ_pos _)
      have hrec := ih f (fun j => cycles (j + 1))
        (fun j hj => hok (j + 1) (Nat.succ_lt_succ hj)) hi
        (Nat.lt_of_succ_lt_succ hlt)
      constructor
      · unfold monitor_loop
        rw [h0, hrec.1]
      · unfold monitorAttempts
        rw [h0, hrec.2]

/-- C4 (witness): the amended loop theorem applied to a run whose second
cycle fails. -/
theorem monitor_loop_unguarded_witness :
    ((∀ j, j < 1 →
        (fun n => if n = 1 then (.error "x" : Except String Unit) else .ok ()) j
          = .ok ()) ∧
     (fun n => if n = 1 then (.error "x" : Except String Unit) else .ok ()) 1
        = .error "x" ∧ 1 < 3) ∧
    monitor_loop 3 (fun n => if n = 1 then .error "x" else .ok ())
      = .error "x" ∧
    monitorAttempts 3 (fun n => if n = 1 then .error "x" else .ok ()) = 2 :=
  ⟨⟨fun j hj => by
      have hj0 : j = 0 := Nat.lt_one_iff.mp hj
      rw [hj0]
      rfl,
    rfl, by decide⟩,
   monitor_loop_unguarded 1 3 _ "x"
     (fun j hj => by
       have hj0 : j = 0 := Nat.lt_one_iff.mp hj
       rw [hj0]
       rfl)
     rfl (by decide)⟩

/-- C5: when the switch condition holds, the `setActiveProxy` mutation runs
before any result is finalised — a failing mutation propagates its error out
of `auto_select_once` and no result dict (in particular no `switched` one) is
produced; conversely a successfully produced `switched` result implies the
mutation completed. -/
theorem switch_mutation_before_switched
    (delays : List ProxyDelay) (current : Option String) (diff : Int)
    (best : ProxyDelay) (rest : List ProxyDelay)
    (hs : sortDelays delays = best :: rest)
    (hcond : (shouldSwitch best current
        (currentDelayOf (sortDelays delays) current) diff
      && decide (some best.name ≠ current)) = true) :
    (∀ e, auto_select_once delays current diff (.error e) = .error e) ∧
    (∀ sw r, auto_select_once delays current diff sw = .ok r →
      sw = .ok ()) := by
  rw [hs] at hcond
  constructor
  · intro e
    unfold auto_select_once
    rw [hs]
    simp only [hcond, if_pos]
  · intro sw r h
    cases sw with
    | error e =>
      unfold auto_select_once at h
      rw [hs] at h
      simp only [hcond, if_pos] at h
      exact Except.noConfusion h
    | ok u =>
      cases u
      rfl

/-- C5 (witness): the mutation-failure theorem applied to a snapshot where
the switch condition holds. -/
theorem switch_mutation_before_switched_witness :
    (sortDelays [⟨"a", 2000⟩, ⟨"b", 100⟩] = [⟨"b", 100⟩, ⟨"a", 2000⟩] ∧
     (shouldSwitch ⟨"b", 100⟩ (some "a")
        (currentDelayOf (sortDelays [⟨"a", 2000⟩, ⟨"b", 100⟩]) (some "a")) 300
       && decide (some ("b" : String) ≠ some "a")) = true) ∧
    auto_select_once [⟨"a", 2000⟩, ⟨"b", 100⟩] (some "a") 300 (.error "put failed")
      = .error "put failed" :=
  ⟨⟨rfl, by decide⟩,
   (switch_mutation_before_switched [⟨"a", 2000⟩, ⟨"b", 100⟩] (some "a") 300
     ⟨"b", 100⟩ [⟨"a", 2000⟩] rfl (by decide)).1 "put failed"⟩

/-- C8 (counterexample): with no current proxy and the snapshot
`[(b, 100)]`, the cycle reports a kept result that carries no `reason` key at
all — the distinguishing reason string is computed internally but dropped
from the reported decision. -/
theorem kept_result_carries_no_reason :
    auto_select_once [⟨"b", 100⟩] none 300 (.ok ())
      = .ok [("action", .jstr "kept"), ("current", .null),
             ("delay_ms", .null), ("best", .jstr "b"),
             ("best_delay_ms", .jint 100)] ∧
    jlookup [("action", .jstr "kept"), ("current", .null),
             ("delay_ms", .null), ("best", .jstr "b"),
             ("best_delay_ms", .jint 100)] "reason" = none := by
  refine ⟨rfl, rfl⟩

/-- C8 (amended): when current is absent and the snapshot is non-empty, the
decision is a kept-style result naming the best candidate and nothing is
switched; the internally computed reason string distinguishes the
no-current case from the current-not-worth-switching case, but the reported
kept result does not include any reason field. -/
theorem no_current_keeps_best
    (delays : List ProxyDelay) (diff : Int)
    (best : ProxyDelay) (rest : List ProxyDelay)
    (hs : sortDelays delays = best :: rest) :
    auto_select_once delays none diff (.ok ())
      = .ok [("action", .jstr "kept"), ("current", .null),
             ("delay_ms", .null), ("best", .jstr best.name),
             ("best_delay_ms", .jint best.delay_ms)] ∧
    decisionReason best none (currentDelayOf (sortDelays delays) none) diff
      = "current proxy not found, keeping best as target" ∧
    "current proxy not found, keeping best as target"
      ≠ "current delay <= 1000ms, keeping current" ∧
    jlookup [("action", .jstr "kept"), ("current", .null),
             ("delay_ms", .null), ("best", .jstr best.name),
             ("best_delay_ms", .jint best.delay_ms)] "reason" = none := by
  refine ⟨?_, rfl, by decide, rfl⟩
  unfold auto_select_once
  rw [hs]
  rfl

/-- C8 (witness): the no-current theorem applied to the snapshot
`[(b, 100)]`. -/
theorem no_current_keeps_best_witness :
    sortDelays [⟨"b", 100⟩] = [(⟨"b", 100⟩ : ProxyDelay)] ∧
    auto_select_once [⟨"b", 100⟩] none 300 (.ok ())
      = .ok [("action", .jstr "kept"), ("current", .null),
             ("delay_ms", .null), ("best", .jstr "b"),
             ("best_delay_ms", .jint 100)] :=
  ⟨rfl, (no_current_keeps_best [⟨"b", 100⟩] 300 ⟨"b", 100⟩ [] rfl).1⟩

/-- Round-trip of the character-list view of a string. -/
theorem toList_asString_id (l : List Char) : (l.asString).toList = l := rfl

/-- Head of `dropWhile p` never satisfies `p`. -/
theorem dropWhile_head?_not {α : Type} (p : α → Bool) :
    ∀ (l : List α) {c : α}, (l.dropWhile p).head? = some c → p c = false := by
  intro l
  induction l with
  | nil =>
    intro c h
    cases h
  | cons a t ih =>
    intro c h
    by_cases hpa : p a = true
    · rw [List.dropWhile_cons, if_pos hpa] at h
      exact ih h
    · rw [List.dropWhile_cons, if_neg hpa] at h
      cases h
      exact Bool.not_eq_true _ ▸ Bool.of_not_eq_true hpa

/-- A list whose head fails `p` is unchanged by `dropWhile p`. -/
theorem dropWhile_eq_self_of_head? {α : Type} (p : α → Bool) (l : List α)
    (h : ∀ c, l.head? = some c → p c = false) : l.dropWhile p = l := by
  cases l with
  | nil => rfl
  | cons a t =>
    rw [List.dropWhile_cons, h a rfl]
    simp

/-- When `dropWhile p` leaves something, the last element is untouched. -/
theorem getLast?_dropWhile {α : Type} (p : α → Bool) :
    ∀ (l : List α), l.dropWhile p ≠ [] →
      (l.dropWhile p).getLast? = l.getLast? := by
  intro l
  induction l with
  | nil =>
    intro h
    exact absurd rfl h
  | cons a t ih =>
    intro h
    by_cases hpa : p a = true
    · rw [List.dropWhile_cons, if_pos hpa] at h ⊢
      cases t with
      | nil => exact absurd rfl h
      | cons b t' =>
        rw [List.getLast?_cons_cons]
        exact ih h
    · rw [List.dropWhile_cons, if_neg hpa]

/-- Stripping both ends is idempotent. -/
theorem dropEnds_idem {α : Type} (p : α → Bool) (l : List α) :
    dropEnds p (dropEnds p l) = dropEnds p l := by
  unfold dropEnds
  by_cases hy : (l.dropWhile p).reverse.dropWhile p = []
  · rw [hy]
    simp
  · have hstep1 : (((l.dropWhile p).reverse.dropWhile p).reverse).dropWhile p
        = ((l.dropWhile p).reverse.dropWhile p).reverse := by
      apply dropWhile_eq_self_of_head?
      intro c hc
      rw [List.head?_reverse, getLast?_dropWhile p _ hy,
        List.getLast?_reverse] at hc
      exact dropWhile_head?_not p l hc
    rw [hstep1, List.reverse_reverse, List.dropWhile_idempotent]

/-- Stripping both ends only removes elements. -/
theorem mem_dropEnds {α : Type} (p : α → Bool) {a : α} {l : List α}
    (h : a ∈ dropEnds p l) : a ∈ l := by
  unfold dropEnds at h
  rw [List.mem_reverse] at h
  have h2 := (List.dropWhile_sublist p).subset h
  rw [List.mem_reverse] at h2
  exact (List.dropWhile_sublist p).subset h2

/-- A filter pass after an end-strip of a filtered list changes nothing, so
filter-then-strip is idempotent as a whole. -/
theorem dropEnds_filter_idem {α : Type} (p f : α → Bool) (l : List α) :
    dropEnds p (List.filter f (dropEnds p (List.filter f l)))
      = dropEnds p (List.filter f l) := by
  have h1 : List.filter f (dropEnds p (List.filter f l))
      = dropEnds p (List.filter f l) :=
    List.filter_eq_self.mpr (fun a ha => List.of_mem_filter (mem_dropEnds p ha))
  rw [h1, dropEnds_idem]

/-- C9: name sanitization is idempotent — every character kept by one pass
(safe punctuation, or a Unicode category starting with L, N or M) survives a
second pass, and a second whitespace trim changes nothing. -/
theorem sanitize_name_idempotent (category : Char → String) (s : String) :
    sanitize_name category (sanitize_name category s)
      = sanitize_name category s := by
  unfold sanitize_name
  rw [toList_asString_id, dropEnds_filter_idem]

/-- Evaluation of the decision cycle once the sorted snapshot is known to
start with `best`. -/
theorem auto_select_once_cons
    (delays : List ProxyDelay) (best : ProxyDelay) (rest : List ProxyDelay)
    (current : Option String) (diff : Int) (sw : Except String Unit)
    (hsd : sortDelays delays = best :: rest) :
    auto_select_once delays current diff sw =
      if (shouldSwitch best current (currentDelayOf (best :: rest) current) diff
          && decide (some best.name ≠ current)) then
        (match sw with
         | .error e => .error e
         | .ok () => .ok [("action", .jstr "switched"),
              ("from", jsonOfOptStr current),
              ("to", .jstr best.name),
              ("from_delay_ms",
                jsonOfOptInt (currentDelayOf (best :: rest) current)),
              ("to_delay_ms", .jint best.delay_ms),
              ("reason", .jstr (decisionReason best current
                (currentDelayOf (best :: rest) current) diff))])
      else
        .ok [("action", .jstr "kept"),
             ("current", jsonOfOptStr current),
             ("delay_ms", jsonOfOptInt (currentDelayOf (best :: rest) current)),
             ("best", .jstr best.name),
             ("best_delay_ms", .jint best.delay_ms)] := by
  unfold auto_select_once
  rw [hsd]

/-- Unfolding of the switch condition into its five constituent facts. -/
theorem shouldSwitch_eq_true_iff
    (best : ProxyDelay) (current : Option String)
    (currentDelay : Option Int) (diff : Int) :
    shouldSwitch best current currentDelay diff = true ↔
      ∃ c d, current = some c ∧ currentDelay = some d ∧
        best.name ≠ c ∧ 1000 < d ∧ diff < d - best.delay_ms := by
  cases current with
  | none => simp [shouldSwitch]
  | some c =>
    cases currentDelay with
    | none => simp [shouldSwitch]
    | some d => simp [shouldSwitch, and_assoc]

/-- A delay the code looks up for the current proxy comes from an actual
snapshot entry with that name. -/
theorem currentDelayOf_eq_some
    (delays : List ProxyDelay) (c : String) (d : Int)
    (h : currentDelayOf (sortDelays delays) (some c) = some d) :
    ∃ p, p ∈ delays ∧ p.name = c ∧ p.delay_ms = d := by
  simp only [currentDelayOf] at h
  by_cases hc : c = ""
  · rw [if_pos hc] at h
    cases h
  · rw [if_neg hc] at h
    rcases hfind : (sortDelays delays).reverse.find? (fun p => p.name = c)
        with _ | q
    · rw [hfind] at h
      cases h
    · rw [hfind] at h
      have hq1 : q ∈ (sortDelays delays).reverse :=
        List.mem_of_find?_eq_some hfind
      rw [List.mem_reverse] at hq1
      have hq2 : q ∈ delays := (List.mem_insertionSort _).mp hq1
      have hq3 : q.name = c := by
        have hpq := List.find?_some hfind
        simpa using hpq
      exact ⟨q, hq2, hq3, Option.some.inj h⟩

/-- Conversely, when the snapshot has no duplicate names, the lookup for a
name present in the snapshot returns exactly that entry's delay. -/
theorem currentDelayOf_of_mem
    (delays : List ProxyDelay) (c : String) (p : ProxyDelay)
    (hnodup : (delays.map ProxyDelay.name).Nodup)
    (hp : p ∈ delays) (hpname : p.name = c) (hc : c ≠ "") :
    currentDelayOf (sortDelays delays) (some c) = some p.delay_ms := by
  simp only [currentDelayOf]
  rw [if_neg hc]
  have hps : p ∈ (sortDelays delays).reverse := by
    rw [List.mem_reverse]
    exact (List.mem_insertionSort _).mpr hp
  have hsome : ((sortDelays delays).reverse.find? (fun q => q.name = c)).isSome
      = true := by
    rw [List.find?_isSome]
    exact ⟨p, hps, by simp [hpname]⟩
  rcases hfind : (sortDelays delays).reverse.find? (fun q => q.name = c)
      with _ | q
  · rw [hfind] at hsome
    cases hsome
  · have hq1 : q ∈ (sortDelays delays).reverse :=
      List.mem_of_find?_eq_some hfind
    rw [List.mem_reverse] at hq1
    have hq2 : q ∈ delays := (List.mem_insertionSort _).mp hq1
    have hqc : q.name = c := by
      have hpq := List.find?_some hfind
      simpa using hpq
    have hqp : q = p :=
      List.inj_on_of_nodup_map hnodup hq2 hp (by rw [hqc, hpname])
    rw [hfind, hqp]
    rfl

/-- C1: for a non-empty, well-formed snapshot (non-empty names, no duplicate
names — the DelaySnapshot constraints) and any optional current proxy, the
cycle reports a switched decision exactly when the current proxy is known,
its delay appears in the snapshot, the best candidate is a different proxy,
the current delay exceeds 1000 ms and the advantage over the best delay
exceeds the configured gap; in every other case the decision keeps the
current proxy. -/
theorem auto_select_switch_iff
    (delays : List ProxyDelay) (current : Option String) (diff : Int)
    (hne : delays ≠ [])
    (hnames : ∀ p ∈ delays, p.name ≠ "")
    (hnodup : (delays.map ProxyDelay.name).Nodup) :
    (∃ r, auto_select_once delays current diff (.ok ()) = .ok r ∧
        jlookup r "action" = some (.jstr "switched")) ↔
    (∃ c p best rest, current = some c ∧ sortDelays delays = best :: rest ∧
        p ∈ delays ∧ p.name = c ∧ best.name ≠ c ∧
        1000 < p.delay_ms ∧ diff < p.delay_ms - best.delay_ms) := by
  obtain ⟨best, rest, hsd⟩ : ∃ b r, sortDelays delays = b :: r := by
    cases hs : sortDelays delays with
    | nil =>
      exfalso
      have hp : (sortDelays delays).Perm delays :=
        List.perm_insertionSort _ delays
      rw [hs] at hp
      exact hne (List.Perm.nil_eq hp).symm
    | cons b r => exact ⟨b, r, rfl⟩
  constructor
  · rintro ⟨r, hr, hact⟩
    rw [auto_select_once_cons delays best rest current diff (.ok ()) hsd] at hr
    by_cases hcond : (shouldSwitch best current
        (currentDelayOf (best :: rest) current) diff
      && decide (some best.name ≠ current)) = true
    · rw [Bool.and_eq_true] at hcond
      rcases hcond with ⟨hsw, _⟩
      rcases (shouldSwitch_eq_true_iff best current
          (currentDelayOf (best :: rest) current) diff).mp hsw
        with ⟨c, d, hcur, hcd, hbn, h1000, hgap⟩
      rw [← hsd, hcur] at hcd
      obtain ⟨p, hpmem, hpname, hpd⟩ := currentDelayOf_eq_some delays c d hcd
      exact ⟨c, p, best, rest, hcur, hsd, hpmem, hpname, hbn,
        by rw [hpd]; exact h1000, by rw [hpd]; exact hgap⟩
    · exfalso
      rw [if_neg hcond] at hr
      have hrk := Except.ok.inj hr
      rw [← hrk] at hact
      have h2 : (some (JValue.jstr "kept") : Option JValue)
          = some (JValue.jstr "switched") := hact
      injection Option.some.inj h2 with h3
      exact absurd h3 (by decide)
  · rintro ⟨c, p, b, r, hcur, hsd', hpmem, hpname, hbn, h1000, hgap⟩
    rw [hsd] at hsd'
    rcases List.cons.inj hsd' with ⟨hb, hrest⟩
    subst hb
    have hcne : c ≠ "" := hpname ▸ hnames p hpmem
    have hcd : currentDelayOf (sortDelays delays) (some c) = some p.delay_ms :=
      currentDelayOf_of_mem delays c p hnodup hpmem hpname hcne
    have hcond : (shouldSwitch best current
        (currentDelayOf (best :: rest) current) diff
      && decide (some best.name ≠ current)) = true := by
      rw [hcur, ← hsd, Bool.and_eq_true]
      constructor
      · rw [shouldSwitch_eq_true_iff]
        exact ⟨c, p.delay_ms, rfl, hcd, hbn, h1000, hgap⟩
      · exact decide_eq_true (fun hEq => hbn (Option.some.inj hEq))
    refine ⟨[("action", .jstr "switched"),
             ("from", jsonOfOptStr current),
             ("to", .jstr best.name),
             ("from_delay_ms",
               jsonOfOptInt (currentDelayOf (best :: rest) current)),
             ("to_delay_ms", .jint best.delay_ms),
             ("reason", .jstr (decisionReason best current
               (currentDelayOf (best :: rest) current) diff))], ?_, rfl⟩
    rw [auto_select_once_cons delays best rest current diff (.ok ()) hsd,
      if_pos hcond]

/-- C1 (witness): the switch-iff theorem applied to the snapshot
`[(a, 2000), (b, 100)]` with current proxy `a` and gap 300. -/
theorem auto_select_switch_iff_witness :
    (([⟨"a", 2000⟩, ⟨"b", 100⟩] : List ProxyDelay) ≠ [] ∧
     (∀ p ∈ ([⟨"a", 2000⟩, ⟨"b", 100⟩] : List ProxyDelay), p.name ≠ "") ∧
     (([⟨"a", 2000⟩, ⟨"b", 100⟩] : List ProxyDelay).map ProxyDelay.name).Nodup) ∧
    ((∃ r, auto_select_once [⟨"a", 2000⟩, ⟨"b", 100⟩] (some "a") 300 (.ok ())
          = .ok r ∧
        jlookup r "action" = some (.jstr "switched")) ↔
     (∃ c p best rest, some "a" = some c ∧
        sortDelays [⟨"a", 2000⟩, ⟨"b", 100⟩] = best :: rest ∧
        p ∈ ([⟨"a", 2000⟩, ⟨"b", 100⟩] : List ProxyDelay) ∧ p.name = c ∧
        best.name ≠ c ∧ 1000 < p.delay_ms ∧
        300 < p.delay_ms - best.delay_ms)) :=
  ⟨⟨by decide, by decide, by decide⟩,
   auto_select_switch_iff [⟨"a", 2000⟩, ⟨"b", 100⟩] (some "a") 300
     (by decide) (by decide) (by decide)⟩
